import Mathlib

/-!
# Verification of the fastbootd transport / dispatch / data-transfer core

Shallow embedding of the device-side fastboot protocol daemon
(`fastboot/device/fastboot_device.h` and the components it declares:
command dispatch, data-transfer loops, status replies, and the USB / UDP
transport adaptors).  The class `FastbootDevice` is declared in
`fastboot/device/fastboot_device.h`; the implementation files
(`device/fastboot_device.cpp`, `device/commands.cpp`,
`device/usb_client.cpp`, `udp.cpp`) are not present in the tree, so the
behaviour of the declared operations is modelled from the specification
and each such definition is marked accordingly.
-/

namespace Fastboot

/-- Modelled from the spec: the `FastbootResult` enumeration used by
`FastbootDevice::WriteStatus` (declared in `fastboot_device.h`; the
defining header `commands.h` is missing from the tree).  Spec:
"FastbootResult: enumerated {OKAY, FAIL, DATA, INFO}". -/
inductive FastbootResult where
  | okay
  | fail
  | data
  | info
deriving DecidableEq, Repr

/-- Modelled from the spec: the 4-byte status tag of a reply.  Spec:
"Status replies: 4-byte prefix `OKAY`, `FAIL`, `DATA`, or `INFO`". -/
def resultTag : FastbootResult → List Char
  | .okay => ['O', 'K', 'A', 'Y']
  | .fail => ['F', 'A', 'I', 'L']
  | .data => ['D', 'A', 'T', 'A']
  | .info => ['I', 'N', 'F', 'O']

/-- Modelled from the spec: the message-size cap of a status reply.  Spec:
"followed by up to 60 bytes of message text (total reply ≤ 64 bytes)". -/
def kMaxMessageSize : Nat := 60

/-- Modelled from the spec: `FastbootDevice::WriteStatus` (declared in
`fastboot_device.h`, body in the missing `device/fastboot_device.cpp`).
It renders a status reply: the 4-byte tag followed by the message text
truncated to the 60-byte cap. -/
def WriteStatus (result : FastbootResult) (message : List Char) : List Char :=
  resultTag result ++ message.take kMaxMessageSize

theorem resultTag_length (r : FastbootResult) : (resultTag r).length = 4 := by
  cases r <;> rfl

/-- Claim C8: every status reply written by `WriteStatus` consists of a
4-byte tag that is exactly one of OKAY, FAIL, DATA, or INFO, followed by
at most 60 bytes of message text, so the total reply never exceeds 64
bytes. -/
theorem writeStatus_reply_bounded (r : FastbootResult) (message : List Char) :
    (WriteStatus r message).take 4 = resultTag r ∧
    (resultTag r = ['O', 'K', 'A', 'Y'] ∨ resultTag r = ['F', 'A', 'I', 'L'] ∨
      resultTag r = ['D', 'A', 'T', 'A'] ∨ resultTag r = ['I', 'N', 'F', 'O']) ∧
    (WriteStatus r message).drop 4 = message.take kMaxMessageSize ∧
    ((WriteStatus r message).drop 4).length ≤ 60 ∧
    (WriteStatus r message).length ≤ 64 := by
  refine ⟨?_, ?_, ?_, ?_, ?_⟩
  · rw [WriteStatus, List.take_append_of_le_length (by rw [resultTag_length]),
      List.take_of_length_le (by rw [resultTag_length])]
  · cases r <;> simp [resultTag]
  · rw [WriteStatus, List.drop_append_of_le_length (by rw [resultTag_length]),
      List.drop_of_length_le (by rw [resultTag_length]), List.nil_append]
  · rw [WriteStatus, List.drop_append_of_le_length (by rw [resultTag_length]),
      List.drop_of_length_le (by rw [resultTag_length]), List.nil_append,
      List.length_take]
    exact le_trans (Nat.min_le_left _ _) (by norm_num [kMaxMessageSize])
  · rw [WriteStatus, List.length_append, resultTag_length, List.length_take]
    have : min kMaxMessageSize message.length ≤ 60 :=
      le_trans (Nat.min_le_left _ _) (by norm_num [kMaxMessageSize])
    omega

/-!
## Data Transfer Manager: `FastbootDevice::HandleData`

`bool HandleData(bool read, std::vector<char>* data)` is declared in
`fastboot_device.h`; its body (`device/fastboot_device.cpp`) is missing
from the tree, so the loops are modelled from the spec: "if `read`, fills
`buffer` by issuing bounded Transport.Read calls sized to the transport's
preferred block size until exactly `buffer.length` bytes have been
received, or returns failure on any short/erroring read; if not `read`,
the inverse for writing the upload buffer out".

The transport medium is modelled by an oracle: for reading, a list of
per-call outcomes (`none` = transport error, `some chunk` = the bytes
that call delivered); for writing, a list of per-call success flags.
-/

/-- Modelled from the spec: the read loop of `HandleData(read = true)`
(`device/fastboot_device.cpp` missing).  `rem` is the number of bytes
still needed; each call requests `min blockSize rem` bytes and a
delivered chunk shorter than requested (or a transport error) makes the
whole loop fail.  On success it returns the list of chunks received, in
order. -/
def readLoop (blockSize : Nat) : Nat → List (Option (List Nat)) → Option (List (List Nat))
  | 0, _ => some []
  | _ + 1, [] => none
  | _ + 1, none :: _ => none
  | rem + 1, some chunk :: rest =>
    if chunk.length = min blockSize (rem + 1) ∧ chunk.length ≠ 0 then
      match readLoop blockSize (rem + 1 - chunk.length) rest with
      | some tail => some (chunk :: tail)
      | none => none
    else none

/-- Modelled from the spec: the write loop of `HandleData(read = false)`
(`device/fastboot_device.cpp` missing).  The buffer is written out in
chunks of at most the preferred block size; any erroring write makes the
loop fail.  On success it returns the list of chunks transmitted, in
order. -/
def writeLoop (blockSize : Nat) : List Nat → List Bool → Option (List (List Nat))
  | [], _ => some []
  | _ :: _, [] => none
  | b :: buf, ok :: rest =>
    if ok ∧ blockSize ≠ 0 then
      match writeLoop blockSize ((b :: buf).drop blockSize) rest with
      | some tail => some ((b :: buf).take blockSize :: tail)
      | none => none
    else none

theorem readLoop_exact (blockSize : Nat) :
    ∀ (reads : List (Option (List Nat))) (rem : Nat) (chunks : List (List Nat)),
      readLoop blockSize rem reads = some chunks →
      chunks.flatten.length = rem ∧ ∀ c ∈ chunks, c.length ≤ blockSize := by
  intro reads
  induction reads with
  | nil =>
    intro rem chunks h
    match rem, h with
    | 0, h =>
      rw [readLoop] at h
      cases h
      simp
  | cons o rest ih =>
    intro rem chunks h
    match rem, o with
    | 0, _ =>
      rw [readLoop] at h
      cases h
      simp
    | rem + 1, none =>
      rw [readLoop] at h
      cases h
    | rem + 1, some chunk =>
      rw [readLoop] at h
      by_cases hc : chunk.length = min blockSize (rem + 1) ∧ chunk.length ≠ 0
      · rw [if_pos hc] at h
        rcases htail : readLoop blockSize (rem + 1 - chunk.length) rest with _ | tail
        · rw [htail] at h; cases h
        · rw [htail] at h
          cases h
          obtain ⟨hlen, hbound⟩ := ih _ _ htail
          constructor
          · simp only [List.flatten_cons, List.length_append, hlen]
            have : chunk.length ≤ rem + 1 := hc.1 ▸ Nat.min_le_right _ _
            omega
          · intro c hcmem
            rcases List.mem_cons.mp hcmem with hceq | hcmem
            · subst hceq; exact hc.1 ▸ Nat.min_le_left _ _
            · exact hbound c hcmem
      · rw [if_neg hc] at h; cases h

theorem writeLoop_exact (blockSize : Nat) :
    ∀ (oks : List Bool) (buf : List Nat) (chunks : List (List Nat)),
      writeLoop blockSize buf oks = some chunks →
      chunks.flatten = buf ∧ ∀ c ∈ chunks, c.length ≤ blockSize := by
  intro oks
  induction oks with
  | nil =>
    intro buf chunks h
    match buf, h with
    | [], h =>
      rw [writeLoop] at h
      cases h
      simp
  | cons ok rest ih =>
    intro buf chunks h
    match buf with
    | [] =>
      rw [writeLoop] at h
      cases h
      simp
    | b :: buf =>
      rw [writeLoop] at h
      by_cases hc : ok = true ∧ blockSize ≠ 0
      · rw [if_pos hc] at h
        rcases htail : writeLoop blockSize ((b :: buf).drop blockSize) rest with _ | tail
        · rw [htail] at h; cases h
        · rw [htail] at h
          cases h
          obtain ⟨hjoin, hbound⟩ := ih _ _ htail
          constructor
          · simp only [List.flatten_cons, hjoin, List.take_append_drop]
          · intro c hcmem
            rcases List.mem_cons.mp hcmem with hceq | hcmem
            · subst hceq
              rw [List.length_take]
              exact Nat.min_le_left _ _
            · exact hbound c hcmem
      · rw [if_neg hc] at h; cases h

/-- Claim C2: `HandleData(read = true, buffer)` succeeds only when exactly
`buffer.length` bytes have been received through bounded reads (each
chunk no larger than the preferred block size); symmetrically,
`HandleData(read = false, buffer)` writes out exactly the buffer, in
chunks no larger than the block size, or fails. -/
theorem handleData_moves_exact (blockSize rem : Nat)
    (reads : List (Option (List Nat))) (buf : List Nat) (oks : List Bool) :
    (∀ chunks, readLoop blockSize rem reads = some chunks →
      chunks.flatten.length = rem ∧ ∀ c ∈ chunks, c.length ≤ blockSize) ∧
    (∀ chunks, writeLoop blockSize buf oks = some chunks →
      chunks.flatten = buf ∧ ∀ c ∈ chunks, c.length ≤ blockSize) :=
  ⟨fun chunks h => readLoop_exact blockSize reads rem chunks h,
   fun chunks h => writeLoop_exact blockSize oks buf chunks h⟩

/-- Witness for C2 at a concrete transfer: block size 2, a 3-byte read
delivered as `[7, 7]` then `[9]`, and a 3-byte write acknowledged in two
calls. -/
theorem handleData_moves_exact_witness :
    (([[7, 7], [9]] : List (List Nat)).flatten.length = 3 ∧
      ∀ c ∈ ([[7, 7], [9]] : List (List Nat)), c.length ≤ 2) ∧
    (([[5, 6], [4]] : List (List Nat)).flatten = [5, 6, 4] ∧
      ∀ c ∈ ([[5, 6], [4]] : List (List Nat)), c.length ≤ 2) :=
  ⟨(handleData_moves_exact 2 3 [some [7, 7], some [9]] [5, 6, 4] [true, true]).1
      [[7, 7], [9]] rfl,
   (handleData_moves_exact 2 3 [some [7, 7], some [9]] [5, 6, 4] [true, true]).2
      [[5, 6], [4]] rfl⟩

/-- Modelled from the spec: the effect of a `HandleData` call on the
caller's buffer (`device/fastboot_device.cpp` missing).  The negotiated
size enters only as `buf.length`; a successful read replaces the
contents with the received bytes, a write leaves the buffer untouched. -/
def handleDataBuffer (blockSize : Nat) (read : Bool) (buf : List Nat)
    (reads : List (Option (List Nat))) (oks : List Bool) : Option (List Nat) :=
  if read then (readLoop blockSize buf.length reads).map List.flatten
  else (writeLoop blockSize buf oks).map fun _ => buf

/-- Claim C10: the negotiated size is passed to `HandleData` solely as
the buffer's length, and a successful call leaves that length unchanged:
a read replaces only the contents (same length), a write changes nothing
at all. -/
theorem handleData_preserves_length (blockSize : Nat) (read : Bool)
    (buf newBuf : List Nat) (reads : List (Option (List Nat))) (oks : List Bool)
    (h : handleDataBuffer blockSize read buf reads oks = some newBuf) :
    newBuf.length = buf.length ∧ (read = false → newBuf = buf) := by
  rw [handleDataBuffer] at h
  cases read with
  | false =>
    rw [if_neg (by simp)] at h
    rcases hw : writeLoop blockSize buf oks with _ | chunks
    · rw [hw] at h; cases h
    · rw [hw, Option.map_some'] at h
      cases h
      exact ⟨rfl, fun _ => rfl⟩
  | true =>
    rw [if_pos rfl] at h
    rcases hr : readLoop blockSize buf.length reads with _ | chunks
    · rw [hr] at h; cases h
    · rw [hr, Option.map_some'] at h
      cases h
      exact ⟨(readLoop_exact blockSize reads buf.length chunks hr).1,
        fun hfalse => by cases hfalse⟩

/-- Witness for C10 at a concrete successful read: block size 2 over a
3-byte buffer. -/
theorem handleData_preserves_length_witness :
    ([7, 7, 9] : List Nat).length = ([0, 0, 0] : List Nat).length ∧
      (true = false → ([7, 7, 9] : List Nat) = [0, 0, 0]) :=
  handleData_preserves_length 2 true [0, 0, 0] [7, 7, 9]
    [some [7, 7], some [9]] [] rfl

/-!
## Hex-encoded sizes

The download negotiation carries the byte count as 8 hex digits
(`download:<8 hex digits>`, reply `DATA<8 hex digits>`).
-/

/-- Value of one hex digit, computed from the character code; accepts
both lower and upper case letters. -/
def hexVal (c : Char) : Option Nat :=
  if '0' ≤ c ∧ c ≤ '9' then some (c.toNat - '0'.toNat)
  else if 'a' ≤ c ∧ c ≤ 'f' then some (c.toNat - 'a'.toNat + 10)
  else if 'A' ≤ c ∧ c ≤ 'F' then some (c.toNat - 'A'.toNat + 10)
  else none

/-- The lower-case hex digit of a value below 16, computed from the
character codes. -/
def toHexChar (n : Nat) : Char :=
  if n < 10 then Char.ofNat (n + '0'.toNat) else Char.ofNat (n - 10 + 'a'.toNat)

/-- Fixed-width big-endian hex rendering of `n`, `width` digits. -/
def toHex : Nat → Nat → List Char
  | 0, _ => []
  | width + 1, n => toHex width (n / 16) ++ [toHexChar (n % 16)]

/-- Big-endian hex accumulator parse; fails on any non-hex character. -/
def parseHexAux : List Char → Nat → Option Nat
  | [], acc => some acc
  | c :: rest, acc =>
    match hexVal c with
    | some v => parseHexAux rest (acc * 16 + v)
    | none => none

/-- Parse a big-endian hex numeral; fails on any non-hex character. -/
def parseHex (l : List Char) : Option Nat := parseHexAux l 0

theorem hexVal_toHexChar : ∀ n < 16, hexVal (toHexChar n) = some n := by decide

theorem toHex_length : ∀ (width n : Nat), (toHex width n).length = width := by
  intro width
  induction width with
  | zero => intro n; rfl
  | succ w ih =>
    intro n
    rw [toHex, List.length_append, ih]
    rfl

theorem parseHexAux_append (l₁ l₂ : List Char) :
    ∀ acc : Nat, parseHexAux (l₁ ++ l₂) acc =
      match parseHexAux l₁ acc with
      | some m => parseHexAux l₂ m
      | none => none := by
  induction l₁ with
  | nil => intro acc; rfl
  | cons c rest ih =>
    intro acc
    rw [List.cons_append, parseHexAux, parseHexAux]
    rcases hexVal c with _ | v
    · rfl
    · exact ih _

theorem parseHexAux_toHex : ∀ (width n acc : Nat), n < 16 ^ width →
    parseHexAux (toHex width n) acc = some (acc * 16 ^ width + n) := by
  intro width
  induction width with
  | zero =>
    intro n acc hn
    interval_cases n
    simp [toHex, parseHexAux]
  | succ w ih =>
    intro n acc hn
    have h16 : n < 16 * 16 ^ w := by
      rw [pow_succ, Nat.mul_comm] at hn
      exact hn
    rw [toHex, parseHexAux_append, ih (n / 16) acc (Nat.div_lt_of_lt_mul h16)]
    show parseHexAux [toHexChar (n % 16)] (acc * 16 ^ w + n / 16) =
      some (acc * 16 ^ (w + 1) + n)
    rw [parseHexAux, hexVal_toHexChar (n % 16) (Nat.mod_lt _ (by norm_num))]
    show some ((acc * 16 ^ w + n / 16) * 16 + n % 16) = some (acc * 16 ^ (w + 1) + n)
    congr 1
    rw [pow_succ, ← Nat.mul_assoc]
    generalize acc * 16 ^ w = A
    omega

/-- Round trip: an 8-digit rendering of any size below `16 ^ 8` parses
back to the same size. -/
theorem parseHex_toHex (width n : Nat) (hn : n < 16 ^ width) :
    parseHex (toHex width n) = some n := by
  rw [parseHex, parseHexAux_toHex width n 0 hn, Nat.zero_mul, Nat.zero_add]

/-!
## Command Dispatcher: `FastbootDevice::ExecuteCommands`

`ExecuteCommands`, `CloseDevice` and the command handlers are declared in
`fastboot_device.h` (with the member `kCommandMap` and the buffers
`download_data_` / `upload_data_`); the bodies
(`device/fastboot_device.cpp`, `device/commands.cpp`) are missing from
the tree, so the session state machine is modelled from the spec
(sections 4.5, 4.6, 6 and 8).
-/

/-- Modelled from the spec: the dispatcher states that matter to one
session (spec section 4.6); `download` carries the negotiated size. -/
inductive SessionState where
  | command
  | download (size : Nat)
  | closed
deriving DecidableEq, Repr

/-- Modelled from the spec: a command handler from the static verb table
(`device/commands.cpp` missing).  Handlers are uniform: they inspect the
argument and either reply directly, start a data phase, or terminate the
session. -/
inductive Handler where
  | download
  | upload
  | reboot
deriving DecidableEq, Repr

/-- What a handler asks the dispatcher to do. -/
inductive HandlerAction where
  | reply (r : FastbootResult) (msg : List Char)
  | startDownload (size : Nat)
  | startUpload
  | terminate
deriving DecidableEq, Repr

/-- The fastboot device session: mirrors the fields of class
`FastbootDevice` in `fastboot_device.h` (`kCommandMap`, `transport_`,
`download_data_`, `upload_data_`) plus the dispatcher state. -/
structure Device where
  kCommandMap : List (List Char × Handler)
  state : SessionState
  downloadData : List Nat
  uploadData : List Nat
  transportOpen : Bool
deriving DecidableEq, Repr

/-- One piece of host input: a command line, or the raw bytes of a data
phase. -/
inductive HostInput where
  | line (l : List Char)
  | raw (bytes : List Nat)
deriving DecidableEq, Repr

/-- One piece of device output: a status reply, or the raw bytes of an
upload data phase. -/
inductive Output where
  | reply (r : FastbootResult) (msg : List Char)
  | raw (bytes : List Nat)
deriving DecidableEq, Repr

def unknownCmdMsg : List Char :=
  ['u', 'n', 'k', 'n', 'o', 'w', 'n', ' ', 'c', 'o', 'm', 'm', 'a', 'n', 'd']

def badSizeMsg : List Char := ['b', 'a', 'd', ' ', 's', 'i', 'z', 'e']

def shortTransferMsg : List Char :=
  ['t', 'r', 'a', 'n', 's', 'f', 'e', 'r', ' ', 'f', 'a', 'i', 'l', 'e', 'd']

/-- Modelled from the spec: the maximum supported download size.  The
`download:<8 hex digits>` negotiation caps it at `16 ^ 8 - 1`. -/
def maxDownloadSize : Nat := 16 ^ 8 - 1

/-- Splits one inbound command line on the first `:` into verb and
argument (spec section 4.6: "split on the first delimiter into
verb/argument"). -/
def splitVerb (line : List Char) : List Char × List Char :=
  (line.takeWhile fun c => c != ':',
   ((line.dropWhile fun c => c != ':').drop 1))

/-- Modelled from the spec: the behaviour of each registered handler
(`device/commands.cpp` missing).  `download` parses the 8-hex-digit
size and starts the download phase; `upload` sends the download buffer
back; `reboot` terminates the session. -/
def runHandler (h : Handler) (arg : List Char) : HandlerAction :=
  match h with
  | .download =>
    if arg.length = 8 then
      match parseHex arg with
      | some size =>
        if size ≤ maxDownloadSize then .startDownload size
        else .reply .fail badSizeMsg
      | none => .reply .fail badSizeMsg
    else .reply .fail badSizeMsg
  | .upload => .startUpload
  | .reboot => .terminate

def downloadVerb : List Char := ['d', 'o', 'w', 'n', 'l', 'o', 'a', 'd']

def uploadVerb : List Char := ['u', 'p', 'l', 'o', 'a', 'd']

def rebootVerb : List Char := ['r', 'e', 'b', 'o', 'o', 't']

/-- Modelled from the spec: the immutable verb table `kCommandMap`
(declared `const` in `fastboot_device.h`; its initializer in the missing
`device/fastboot_device.cpp`), probed by exact string match. -/
def fastbootCommandMap : List (List Char × Handler) :=
  [(downloadVerb, .download), (uploadVerb, .upload), (rebootVerb, .reboot)]

/-- Modelled from the spec: `FastbootDevice::CloseDevice` (declared in
`fastboot_device.h`, body in the missing `device/fastboot_device.cpp`).
It releases the session's resources: the transport is closed and the
buffers freed. -/
def CloseDevice (d : Device) : Device :=
  { d with transportOpen := false, state := .closed,
           downloadData := [], uploadData := [] }

/-- Modelled from the spec: one iteration of the `ExecuteCommands`
dispatch loop (`device/fastboot_device.cpp` missing), consuming one
piece of host input.  In COMMAND state a line is parsed and dispatched:
an unknown verb gets exactly one FAIL and no state change; a known
handler replies, starts a data phase, or closes the session.  In
DOWNLOAD state the data phase accepts exactly the negotiated byte count;
a short or long transfer is a FAIL and the partial data is discarded. -/
def step (d : Device) (input : HostInput) : Device × List Output :=
  match d.state, input with
  | .closed, _ => (d, [])
  | .command, .line l =>
    match List.lookup (splitVerb l).1 d.kCommandMap with
    | none => ({ d with state := .command }, [.reply .fail unknownCmdMsg])
    | some h =>
      match runHandler h (splitVerb l).2 with
      | .reply r m => ({ d with state := .command }, [.reply r m])
      | .startDownload size =>
        ({ d with state := .download size }, [.reply .data (toHex 8 size)])
      | .startUpload =>
        ({ d with state := .command },
         [.reply .data (toHex 8 d.downloadData.length),
          .raw d.downloadData, .reply .okay []])
      | .terminate => (CloseDevice d, [.reply .okay []])
  | .command, .raw _ => (d, [])
  | .download n, .raw bytes =>
    if bytes.length = n then
      ({ d with state := .command, downloadData := bytes }, [.reply .okay []])
    else
      ({ d with state := .command }, [.reply .fail shortTransferMsg])
  | .download _, .line _ =>
    ({ d with state := .command }, [.reply .fail shortTransferMsg])

/-- The dispatch loop: consume host inputs in order, collecting all
outputs. -/
def runSession : Device → List HostInput → Device × List Output
  | d, [] => (d, [])
  | d, i :: rest =>
    ((runSession (step d i).1 rest).1, (step d i).2 ++ (runSession (step d i).1 rest).2)

/-- The session right after transport accept: the static verb table, an
open transport, empty buffers. -/
def initialDevice : Device :=
  { kCommandMap := fastbootCommandMap, state := .command,
    downloadData := [], uploadData := [], transportOpen := true }

/-- The wire form of `download:<8 hex digits>`. -/
def downloadLine (size : Nat) : List Char := downloadVerb ++ ':' :: toHex 8 size

theorem takeWhile_colon (t : List Char) :
    ∀ v : List Char, (∀ c ∈ v, c ≠ ':') →
      (v ++ ':' :: t).takeWhile (fun c => c != ':') = v := by
  intro v
  induction v with
  | nil =>
    intro _
    simp [List.takeWhile_cons]
  | cons c cs ih =>
    intro hv
    have hc : (c != ':') = true := by
      simpa using hv c (List.mem_cons_self c cs)
    rw [List.cons_append, List.takeWhile_cons, hc, if_pos rfl,
      ih fun x hx => hv x (List.mem_cons_of_mem c hx)]

theorem dropWhile_colon (t : List Char) :
    ∀ v : List Char, (∀ c ∈ v, c ≠ ':') →
      (v ++ ':' :: t).dropWhile (fun c => c != ':') = ':' :: t := by
  intro v
  induction v with
  | nil =>
    intro _
    simp [List.dropWhile_cons]
  | cons c cs ih =>
    intro hv
    have hc : (c != ':') = true := by
      simpa using hv c (List.mem_cons_self c cs)
    rw [List.cons_append, List.dropWhile_cons, hc, if_pos rfl,
      ih fun x hx => hv x (List.mem_cons_of_mem c hx)]

theorem splitVerb_colon (v t : List Char) (hv : ∀ c ∈ v, c ≠ ':') :
    splitVerb (v ++ ':' :: t) = (v, t) := by
  rw [splitVerb, takeWhile_colon t v hv, dropWhile_colon t v hv]
  rfl

/-- Claim C4: a command line whose verb has no exact match in the
dispatch table yields exactly one FAIL reply with a fixed message and
leaves the session unchanged, still in COMMAND state. -/
theorem unknown_verb_fail (d : Device) (l : List Char)
    (hst : d.state = .command)
    (hnone : List.lookup (splitVerb l).1 d.kCommandMap = none) :
    step d (.line l) = (d, [.reply .fail unknownCmdMsg]) := by
  rcases d with ⟨m, st, dl, ul, t⟩
  subst hst
  simp only [step, hnone]

/-- Witness for C4: the verb `foo` is not registered; dispatching it
from the initial session produces one FAIL and the identical session. -/
theorem unknown_verb_fail_witness :
    step initialDevice (.line ['f', 'o', 'o']) =
      (initialDevice, [.reply .fail unknownCmdMsg]) :=
  unknown_verb_fail initialDevice ['f', 'o', 'o'] rfl rfl

theorem lookup_downloadVerb :
    List.lookup downloadVerb fastbootCommandMap = some Handler.download := rfl

theorem lookup_uploadVerb :
    List.lookup uploadVerb fastbootCommandMap = some Handler.upload := rfl

theorem splitVerb_downloadLine (size : Nat) :
    splitVerb (downloadLine size) = (downloadVerb, toHex 8 size) :=
  splitVerb_colon downloadVerb (toHex 8 size) (by decide)

theorem splitVerb_uploadVerb : splitVerb uploadVerb = (uploadVerb, []) := rfl

/-- Claim C1: for every size `S` up to the maximum supported buffer
size, the session `download:<S>`, then exactly `S` bytes of data, then
`upload`, sends back exactly the `S` downloaded bytes, byte-for-byte
(together with the negotiated DATA/OKAY replies of each phase). -/
theorem download_upload_roundtrip (size : Nat) (bytes : List Nat)
    (hsize : size ≤ maxDownloadSize) (hlen : bytes.length = size) :
    (runSession initialDevice
      [.line (downloadLine size), .raw bytes, .line uploadVerb]).2 =
    [.reply .data (toHex 8 size), .reply .okay [],
     .reply .data (toHex 8 size), .raw bytes, .reply .okay []] := by
  have hlt : size < 16 ^ 8 := by
    rw [maxDownloadSize] at hsize
    omega
  have hstep1 : step initialDevice (.line (downloadLine size)) =
      ({ initialDevice with state := .download size },
       [.reply .data (toHex 8 size)]) := by
    simp only [step, initialDevice, splitVerb_downloadLine, lookup_downloadVerb,
      runHandler, toHex_length, parseHex_toHex 8 size hlt, if_pos rfl, if_pos hsize,
      if_true]
  have hstep2 : step { initialDevice with state := .download size } (.raw bytes) =
      ({ initialDevice with state := .command, downloadData := bytes },
       [.reply .okay []]) := by
    simp only [step, initialDevice, if_pos hlen]
  have hstep3 : step { initialDevice with state := .command, downloadData := bytes }
      (.line uploadVerb) =
      ({ initialDevice with state := .command, downloadData := bytes },
       [.reply .data (toHex 8 bytes.length), .raw bytes, .reply .okay []]) := by
    simp only [step, initialDevice, splitVerb_uploadVerb, lookup_uploadVerb, runHandler]
  rw [runSession, runSession, runSession, runSession, hstep1]
  simp only []
  rw [hstep2]
  simp only []
  rw [hstep3, hlen]
  rfl

/-- Witness for C1 at size 3 with bytes `[1, 2, 3]`. -/
theorem download_upload_roundtrip_witness :
    (runSession initialDevice
      [.line (downloadLine 3), .raw [1, 2, 3], .line uploadVerb]).2 =
    [.reply .data (toHex 8 3), .reply .okay [],
     .reply .data (toHex 8 3), .raw [1, 2, 3], .reply .okay []] :=
  download_upload_roundtrip 3 [1, 2, 3] (by norm_num [maxDownloadSize]) rfl

/-- Claim C3: when the data phase fails (the transfer delivers a byte
count different from the negotiated one), the partial data is discarded:
both buffers are exactly as before the transfer, the host gets one FAIL
reply, and the session is back in COMMAND state, so no subsequent
command can observe the partial data. -/
theorem data_phase_failure_discards (d : Device) (n : Nat) (bytes : List Nat)
    (hst : d.state = .download n) (hfail : bytes.length ≠ n) :
    (step d (.raw bytes)).1 = { d with state := SessionState.command } ∧
    (step d (.raw bytes)).1.downloadData = d.downloadData ∧
    (step d (.raw bytes)).1.uploadData = d.uploadData ∧
    (step d (.raw bytes)).2 = [.reply .fail shortTransferMsg] := by
  rcases d with ⟨m, st, dl, ul, t⟩
  subst hst
  simp only [step, if_neg hfail]
  refine ⟨?_, ?_, ?_, ?_⟩ <;> first | rfl | trivial

/-- Witness for C3: a negotiated size of 2 answered with 3 bytes. -/
theorem data_phase_failure_discards_witness :
    (step { initialDevice with state := .download 2 } (.raw [1, 2, 3])).1 =
      { { initialDevice with state := .download 2 } with
          state := SessionState.command } ∧
    (step { initialDevice with state := .download 2 } (.raw [1, 2, 3])).1.downloadData =
      ({ initialDevice with state := .download 2 } : Device).downloadData ∧
    (step { initialDevice with state := .download 2 } (.raw [1, 2, 3])).1.uploadData =
      ({ initialDevice with state := .download 2 } : Device).uploadData ∧
    (step { initialDevice with state := .download 2 } (.raw [1, 2, 3])).2 =
      [.reply .fail shortTransferMsg] :=
  data_phase_failure_discards { initialDevice with state := .download 2 } 2
    [1, 2, 3] rfl (by decide)

theorem step_kCommandMap (d : Device) (i : HostInput) :
    (step d i).1.kCommandMap = d.kCommandMap := by
  rcases d with ⟨m, st, dl, ul, t⟩
  rcases st with _ | n | _ <;> rcases i with l | bytes <;>
    simp only [step, CloseDevice] <;> repeat' split
  all_goals rfl

/-- Claim C7: the verb table is built once and never mutated: every
operation of the dispatcher (any run of the dispatch loop, any single
step — command dispatch, data phase, error handling — and closing the
device) leaves `kCommandMap` identical. -/
theorem commandMap_never_mutated (d : Device) (inputs : List HostInput)
    (i : HostInput) :
    (runSession d inputs).1.kCommandMap = d.kCommandMap ∧
    (step d i).1.kCommandMap = d.kCommandMap ∧
    (CloseDevice d).kCommandMap = d.kCommandMap := by
  refine ⟨?_, step_kCommandMap d i, rfl⟩
  induction inputs generalizing d with
  | nil => rfl
  | cons j rest ih =>
    rw [runSession]
    exact (ih (step d j).1).trans (step_kCommandMap d j)

/-- Claim C9: closing the device is idempotent and total: it releases
the transport, and closing an already-closed session changes nothing —
`CloseDevice (CloseDevice d) = CloseDevice d` for every session state. -/
theorem closeDevice_idempotent (d : Device) :
    CloseDevice (CloseDevice d) = CloseDevice d ∧
    (CloseDevice d).transportOpen = false ∧
    (CloseDevice d).state = SessionState.closed :=
  ⟨rfl, rfl, rfl⟩

/-!
## UDP adaptor: deduplicating receiver

The reliable-UDP layer is listed in the build (`udp.cpp`) but the file
is missing from the tree, so the receiving side of the ARQ protocol is
modelled from the spec (sections 4.4 and 3): sequence ids strictly
increase; a DATA packet whose id is at most the highest id already
accepted is not re-delivered but is still acknowledged; an id beyond the
next expected one is a protocol error that closes the session.
-/

/-- A DATA packet of the reliable-UDP layer: sequence id and payload. -/
structure UdpPacket where
  seqId : Nat
  payload : List Nat
deriving DecidableEq, Repr

/-- The per-session receive state of the reliable-UDP layer: the highest
sequence id accepted so far (ids start above it), and whether the
session was torn down by a protocol error. -/
structure UdpReceiver where
  highestAccepted : Nat
  closed : Bool
deriving DecidableEq, Repr

/-- Modelled from the spec: receipt of one DATA packet by the UDP
adaptor (`udp.cpp` missing from the tree).  Returns the new state, the
ACKs emitted, and the payloads handed up to the Data Transfer Manager.
A duplicate id (at most the highest accepted) is acknowledged but not
re-delivered; the next id in sequence is accepted, acknowledged and
delivered; any further-out id closes the session. -/
def udpReceive (r : UdpReceiver) (p : UdpPacket) :
    UdpReceiver × List Nat × List (List Nat) :=
  if r.closed then (r, [], [])
  else if p.seqId ≤ r.highestAccepted then (r, [p.seqId], [])
  else if p.seqId = r.highestAccepted + 1 then
    ({ r with highestAccepted := p.seqId }, [p.seqId], [p.payload])
  else ({ r with closed := true }, [], [])

/-- Receipt of a whole packet sequence, collecting ACKs and delivered
payloads in order. -/
def udpRun : UdpReceiver → List UdpPacket → UdpReceiver × List Nat × List (List Nat)
  | r, [] => (r, [], [])
  | r, p :: rest =>
    ((udpRun (udpReceive r p).1 rest).1,
     (udpReceive r p).2.1 ++ (udpRun (udpReceive r p).1 rest).2.1,
     (udpReceive r p).2.2 ++ (udpRun (udpReceive r p).1 rest).2.2)

/-- Claim C5: a DATA packet whose sequence id is at most the highest id
already accepted is never delivered to the Data Transfer Manager again,
yet its ACK is still emitted (and the receiver state is untouched); in
particular, when one ACK is lost and a fresh packet is therefore
received twice, both copies are acknowledged but the payload is
delivered exactly once. -/
theorem udp_dedup_acks (r : UdpReceiver) (p q : UdpPacket)
    (hopen : r.closed = false) :
    (p.seqId ≤ r.highestAccepted → udpReceive r p = (r, [p.seqId], [])) ∧
    (q.seqId = r.highestAccepted + 1 →
      udpRun r [q, q] =
        ({ r with highestAccepted := q.seqId }, [q.seqId, q.seqId], [q.payload])) := by
  constructor
  · intro hdup
    rw [udpReceive, if_neg (by rw [hopen]; exact Bool.false_ne_true), if_pos hdup]
  · intro hnext
    have h1 : udpReceive r q = ({ r with highestAccepted := q.seqId }, [q.seqId], [q.payload]) := by
      rw [udpReceive, if_neg (by rw [hopen]; exact Bool.false_ne_true),
        if_neg (by omega), if_pos hnext]
    have h2 : udpReceive { r with highestAccepted := q.seqId } q =
        ({ r with highestAccepted := q.seqId }, [q.seqId], []) := by
      rw [udpReceive, if_neg (by simp [hopen]), if_pos (by simp)]
    rw [udpRun, udpRun, udpRun, h1]
    simp only [h1, h2]
    rfl

/-- Witness for C5: a receiver that has accepted up to id 5; a duplicate
with id 3 is acked but not delivered, and a fresh id-6 packet received
twice (lost-ACK retransmission) is delivered once and acked twice. -/
theorem udp_dedup_acks_witness :
    (udpReceive ⟨5, false⟩ ⟨3, [7]⟩ = (⟨5, false⟩, [3], []) ∧
      udpRun ⟨5, false⟩ [⟨6, [9]⟩, ⟨6, [9]⟩] = (⟨6, false⟩, [6, 6], [[9]])) :=
  ⟨(udp_dedup_acks ⟨5, false⟩ ⟨3, [7]⟩ ⟨6, [9]⟩ rfl).1 (by norm_num),
   (udp_dedup_acks ⟨5, false⟩ ⟨3, [7]⟩ ⟨6, [9]⟩ rfl).2 rfl⟩

/-!
## USB adaptor: zero-length-packet termination

The USB device-mode adaptor (`device/usb_client.cpp`) is listed in the
build but missing from the tree, so the outbound framing rule is
modelled from the spec (section 4.2): a transfer whose length is an
exact multiple of the endpoint's maximum packet size must be followed by
an extra zero-length packet.
-/

/-- Splits a buffer into packets of at most `maxPacket` bytes.  The
first argument is fuel; `buf.length` is always enough when
`maxPacket > 0`. -/
def chunkPackets (maxPacket : Nat) : Nat → List Nat → List (List Nat)
  | 0, _ => []
  | _, [] => []
  | fuel + 1, b :: buf =>
    (b :: buf).take maxPacket :: chunkPackets maxPacket fuel ((b :: buf).drop maxPacket)

/-- Modelled from the spec: the sequence of USB packets emitted for one
outbound transfer (`device/usb_client.cpp` missing): the data split
into max-packet-size packets, followed by one zero-length packet exactly
when the transfer length is a multiple of the max packet size. -/
def usbWrite (maxPacket : Nat) (buf : List Nat) : List (List Nat) :=
  chunkPackets maxPacket buf.length buf ++
    (if buf.length % maxPacket = 0 then [[]] else [])

theorem chunkPackets_ne_nil (maxPacket : Nat) (hmp : 0 < maxPacket) :
    ∀ (fuel : Nat) (buf : List Nat), ∀ c ∈ chunkPackets maxPacket fuel buf, c ≠ [] := by
  intro fuel
  induction fuel with
  | zero =>
    intro buf c hc
    simp [chunkPackets] at hc
  | succ f ih =>
    intro buf c hc
    match buf with
    | [] => cases hc
    | b :: buf =>
      rw [chunkPackets] at hc
      rcases List.mem_cons.mp hc with hceq | hcmem
      · subst hceq
        match maxPacket, hmp with
        | mp + 1, _ => simp
      · exact ih _ c hcmem

theorem chunkPackets_flatten (maxPacket : Nat) (hmp : 0 < maxPacket) :
    ∀ (fuel : Nat) (buf : List Nat), buf.length ≤ fuel →
      (chunkPackets maxPacket fuel buf).flatten = buf := by
  intro fuel
  induction fuel with
  | zero =>
    intro buf hlen
    rw [List.length_eq_zero.mp (Nat.le_zero.mp hlen)]
    rfl
  | succ f ih =>
    intro buf hlen
    match buf with
    | [] => rfl
    | b :: buf =>
      rw [chunkPackets, List.flatten_cons,
        ih _ (by
          rw [List.length_drop, List.length_cons]
          rw [List.length_cons] at hlen
          omega),
        List.take_append_drop]

/-- Claim C6: an outbound USB write whose length is an exact multiple of
the endpoint's maximum packet size is followed by an additional
zero-length packet, and a write whose length is not an exact multiple is
not: the emitted packet list carries exactly the buffer, ends in a
zero-length packet when `length % maxPacket = 0`, and contains no
zero-length packet otherwise. -/
theorem usb_zero_length_packet (maxPacket : Nat) (buf : List Nat)
    (hmp : 0 < maxPacket) :
    (buf.length % maxPacket = 0 →
      usbWrite maxPacket buf = chunkPackets maxPacket buf.length buf ++ [[]]) ∧
    (buf.length % maxPacket ≠ 0 →
      usbWrite maxPacket buf = chunkPackets maxPacket buf.length buf ∧
      ∀ c ∈ usbWrite maxPacket buf, c ≠ []) ∧
    (chunkPackets maxPacket buf.length buf).flatten = buf := by
  refine ⟨?_, ?_, chunkPackets_flatten maxPacket hmp buf.length buf le_rfl⟩
  · intro hmul
    rw [usbWrite, if_pos hmul]
  · intro hmul
    have heq : usbWrite maxPacket buf = chunkPackets maxPacket buf.length buf := by
      rw [usbWrite, if_neg hmul, List.append_nil]
    exact ⟨heq, fun c hc => chunkPackets_ne_nil maxPacket hmp buf.length buf c (heq ▸ hc)⟩

/-- Witness for C6: max packet size 2; a 4-byte write gets the trailing
zero-length packet, the 3-byte case is covered by the same theorem at
another input inside this statement. -/
theorem usb_zero_length_packet_witness :
    (usbWrite 2 [1, 2, 3, 4] = chunkPackets 2 4 [1, 2, 3, 4] ++ [[]]) ∧
    (usbWrite 2 [1, 2, 3] = chunkPackets 2 3 [1, 2, 3] ∧
      ∀ c ∈ usbWrite 2 [1, 2, 3], c ≠ []) :=
  ⟨(usb_zero_length_packet 2 [1, 2, 3, 4] (by norm_num)).1 (by norm_num),
   ((usb_zero_length_packet 2 [1, 2, 3] (by norm_num)).2.1 (by norm_num))⟩

end Fastboot
